import Mathlib

/-!
# Verification of the delta-struct field diff/patch engine

Shallow embedding of `src/delta-struct-macros/src/lib.rs`.  The derive macro
generates, for each struct, a companion `Delta` type together with a
`delta(old, new) : Option<Delta>` diff function and an
`apply_delta(&mut self, delta)` patch function.  We embed:

* the field classifier (`string_to_fieldtype`, `collect_results`, the
  `unwrap_or` defaulting from `derive_delta`);
* the per-field algorithms emitted by `delta_compute_fields` and
  `delta_apply_fields` (Scalar, Unordered and Delta strategies);
* a representative generated record (`Outer`, containing one field of each
  implemented strategy, with a nested record `Inner` for the Delta strategy),
  whose `delta`/`applyDelta` functions are transcribed exactly from the
  macro's output templates.
-/

namespace DeltaStruct

/-- `enum FieldType` from lib.rs lines 14-20. -/
inductive FieldType
  | Ordered
  | Unordered
  | Scalar
  | Delta
deriving DecidableEq, Repr

/-- `string_to_fieldtype` from lib.rs lines 418-426. -/
def string_to_fieldtype (s : String) : Option FieldType :=
  match s with
  | "ordered" => some FieldType.Ordered
  | "unordered" => some FieldType.Unordered
  | "scalar" => some FieldType.Scalar
  | "delta" => some FieldType.Delta
  | _ => none

/-- `enum FieldTypeError` from lib.rs lines 353-355; the payload (the junk
`NestedMeta` tokens) is irrelevant to the claims, so each token is `Unit`. -/
inductive FieldTypeError
  | UnrecognizedJunkFound (junk : List Unit)

/-- `collect_results` from lib.rs lines 335-351: folds the per-field
classification results, accumulating either the classified fields (with
`c.unwrap_or(default_field_type)` resolving a missing override to the
record default) or the names of every field whose attribute parse failed.
`τ` stands for the field's Rust `Type` token, which the fold carries
through untouched. -/
def collect_results {τ : Type}
    (iter : List (String × τ × Except FieldTypeError (Option FieldType × String)))
    (default_field_type : FieldType) :
    Except (List String) (List (String × τ × FieldType × String)) :=
  iter.foldl
    (fun v i =>
      match v, i with
      | Except.ok v, (ident, b, Except.ok (c, d)) =>
          Except.ok (v ++ [(ident, b, c.getD default_field_type, d)])
      | Except.ok _, (ident, _, Except.error _) => Except.error [ident]
      | Except.error v, (ident, _, Except.error _) => Except.error (v ++ [ident])
      | Except.error v, _ => Except.error v)
    (Except.ok [])

/-- The per-field result of `get_fieldtype_from_attrs` (lib.rs lines 391-409)
for a field that either has no `delta_struct` attribute (`none`) or declares a
single well-formed `field_type = "s"` name-value pair (`some s`): the function
returns `Ok((string_to_fieldtype(s), delta_leader))` — a strategy string that
`string_to_fieldtype` rejects yields `Ok((None, _))`, not an error.  The
`delta_leader` component is empty here since none of the claims involves it. -/
def fieldtype_result_of (decl : Option String) :
    Except FieldTypeError (Option FieldType × String) :=
  Except.ok (decl.bind string_to_fieldtype, "")

/-- The classifier as invoked by `derive_delta` (lib.rs lines 44-58): each
field contributes its name, its type token and its parsed attribute result,
and `collect_results` resolves them against the record default. -/
def classify {τ : Type} (fields : List (String × τ × Option String))
    (default_field_type : FieldType) :
    Except (List String) (List (String × τ × FieldType × String)) :=
  collect_results
    (fields.map fun f => (f.1, f.2.1, fieldtype_result_of f.2.2))
    default_field_type

/-- Record-level default resolution from lib.rs line 34:
`v.unwrap_or(FieldType::Scalar)`. -/
def resolve_default (v : Option FieldType) : FieldType :=
  v.getD FieldType.Scalar

/-! ## The Unordered-strategy list algorithms

`delta_compute_fields` (lib.rs lines 220-241) and `delta_apply_fields`
(lib.rs lines 284-307) both use the idiom

```rust
if let Some(index) = v.iter().position(|a| a == &i) {
    v.remove(index); ...
}
```

i.e. remove the first element of `v` equal to `i` when one exists.
`removeFirst` models exactly that combined operation. -/

variable {α : Type}

/-- `v.iter().position(|a| a == &i)` followed by `v.remove(index)`: `some v'`
with the first element equal to `i` removed, or `none` when no element of
`v` equals `i`. -/
def removeFirst [DecidableEq α] (i : α) : List α → Option (List α)
  | [] => none
  | a :: rest => if a = i then some rest else (removeFirst i rest).map (a :: ·)

/-- The compute loop for an Unordered field (lib.rs lines 226-234): `add`
starts as `new`'s elements; each element `i` of `old` either consumes its
first match in `add` or is appended to `remove` (the `filter_map` collected
into the `remove` vector). -/
def deltaLoop [DecidableEq α] : List α → List α → List α → List α × List α
  | add, remove, [] => (add, remove)
  | add, remove, i :: old =>
    match removeFirst i add with
    | some add' => deltaLoop add' remove old
    | none => deltaLoop add (remove ++ [i]) old

/-- The Unordered diff, lib.rs lines 226-234: returns `(add, remove)`. -/
def unorderedDelta [DecidableEq α] (old new : List α) : List α × List α :=
  deltaLoop new [] old

/-- The kept-elements walk of the Unordered patch (lib.rs lines 295-302):
each element of the original contents either consumes its first match in the
`remove` list and is dropped, or is kept. -/
def applyKept [DecidableEq α] : List α → List α → List α
  | _, [] => []
  | remove, i :: og =>
    match removeFirst i remove with
    | some remove' => applyKept remove' og
    | none => i :: applyKept remove og

/-- The Unordered patch, lib.rs lines 294-304: the kept elements followed by
`extend(add)`. -/
def unorderedApply [DecidableEq α] (og add remove : List α) : List α :=
  applyKept remove og ++ add

/-! ## Spec-side formulations (for the refinement claims)

These two definitions follow the SPEC's wording of §4.3/§4.4 rather than the
source: a mutable working copy scanned with membership tests and `erase`. -/

/-- The Unordered diff as the spec words it: start from a working copy of
`new`; for each `e` of `old` left to right, if an equal element remains in
the working copy remove that first matched instance, otherwise append `e` to
the removed list; whatever remains in the working copy is the added list. -/
def unorderedDeltaSpec [DecidableEq α] (old new : List α) : List α × List α :=
  old.foldl
    (fun (wr : List α × List α) e =>
      if e ∈ wr.1 then (wr.1.erase e, wr.2) else (wr.1, wr.2 ++ [e]))
    (new, [])

/-- The Unordered patch as the spec words it: walk the original contents,
dropping each element that consumes an as-yet-unconsumed entry of the removed
list and keeping the rest, then append every added entry. -/
def unorderedApplySpec [DecidableEq α] (og add remove : List α) : List α :=
  (og.foldl
    (fun (kr : List α × List α) e =>
      if e ∈ kr.2 then (kr.1, kr.2.erase e) else (kr.1 ++ [e], kr.2))
    ([], remove)).1 ++ add

/-! ## A representative generated record

`Outer` is a struct with one field of each implemented strategy, in this
declaration order:

```rust
#[derive(Delta)]
struct Outer {
    count: γ,                                    // scalar (the default)
    #[delta_struct(field_type = "unordered")]
    tags: Vec<α>,
    #[delta_struct(field_type = "delta")]
    address: Inner<β>,
}
```

`Inner` is a one-field scalar struct, itself deriving `Delta`.  `Inner.delta`,
`Inner.applyDelta`, `Outer.delta` and `Outer.applyDelta` below transcribe the
macro's output (`delta_fields`, `delta_compute_fields`, `delta_apply_fields`
and the `delta_impl` template of lib.rs lines 136-158) for these two structs.
A Rust mutation `self.f = v` becomes a functional record update, applied field
by field in the same order. -/

structure Inner (β : Type) where
  val : β
deriving DecidableEq, Repr

/-- The generated `InnerDelta` struct: a scalar field becomes
`Option<#ty>` (lib.rs lines 191-196). -/
structure InnerDelta (β : Type) where
  val : Option β
deriving DecidableEq, Repr

/-- Generated `Delta::delta` for `Inner` (scalar arm of
`delta_compute_fields`, lib.rs lines 243-255, inside the `delta_impl`
template of lines 140-150). -/
def Inner.delta [DecidableEq β] (old new : Inner β) : Option (InnerDelta β) :=
  let delta_is_some := false
  let val := if old.val ≠ new.val then some new.val else none
  let delta_is_some := delta_is_some || val.isSome
  if delta_is_some then some { val := val } else none

/-- Generated `Delta::apply_delta` for `Inner` (scalar arm of
`delta_apply_fields`, lib.rs lines 309-319). -/
def Inner.applyDelta (self : Inner β) (delta : InnerDelta β) : Inner β :=
  match delta.val with
  | some v => { self with val := v }
  | none => self

structure Outer (γ α β : Type) where
  count : γ
  tags : List α
  address : Inner β
deriving DecidableEq, Repr

/-- The generated `OuterDelta` struct (`delta_fields`, lib.rs lines 168-205):
scalar → `Option<#ty>`, unordered → the `#ident_add`/`#ident_remove` vector
pair, delta → `Option<<#ty as Delta>::Output>`. -/
structure OuterDelta (γ α β : Type) where
  count : Option γ
  tags_add : List α
  tags_remove : List α
  address : Option (InnerDelta β)
deriving DecidableEq, Repr

/-- Generated `Delta::delta` for `Outer` (lib.rs lines 140-150 with the three
arms of `delta_compute_fields`, lines 218-266): each field's `let` runs in
declaration order, or-ing its change flag into `delta_is_some`, and the
assembled delta is returned iff the flag ended true. -/
def Outer.delta [DecidableEq γ] [DecidableEq α] [DecidableEq β]
    (old new : Outer γ α β) : Option (OuterDelta γ α β) :=
  let delta_is_some := false
  let count := if old.count ≠ new.count then some new.count else none
  let delta_is_some := delta_is_some || count.isSome
  let tags_pair := unorderedDelta old.tags new.tags
  let delta_is_some := delta_is_some || !tags_pair.1.isEmpty || !tags_pair.2.isEmpty
  let address := Inner.delta old.address new.address
  let delta_is_some := delta_is_some || address.isSome
  if delta_is_some then
    some { count := count, tags_add := tags_pair.1, tags_remove := tags_pair.2,
           address := address }
  else
    none

/-- Generated `Delta::apply_delta` for `Outer` (lib.rs lines 152-157 with the
three arms of `delta_apply_fields`, lines 282-331): the delta is destructured
and each field's action runs in declaration order — scalar overwrite when
present, the unordered kept-walk plus extend, recursive apply when present. -/
def Outer.applyDelta [DecidableEq α] (self : Outer γ α β)
    (delta : OuterDelta γ α β) : Outer γ α β :=
  let self :=
    match delta.count with
    | some v => { self with count := v }
    | none => self
  let self := { self with
    tags := unorderedApply self.tags delta.tags_add delta.tags_remove }
  let self :=
    match delta.address with
    | some v => { self with address := self.address.applyDelta v }
    | none => self
  self

/-- How a consumer uses the `Option<Delta>` returned by `delta`: absence means
`apply_delta` is never called, so the record is left as is. -/
def Outer.applyOptDelta [DecidableEq α] (self : Outer γ α β) :
    Option (OuterDelta γ α β) → Outer γ α β
  | some d => self.applyDelta d
  | none => self

/-! ## Helper lemmas about the Unordered algorithms -/

/-- `removeFirst` in closed form: erase the first occurrence when present. -/
theorem removeFirst_eq [DecidableEq α] (i : α) (l : List α) :
    removeFirst i l = if i ∈ l then some (l.erase i) else none := by
  induction l with
  | nil => simp [removeFirst]
  | cons a rest ih =>
    by_cases hai : a = i
    · subst hai
      simp [removeFirst, List.erase_cons_head]
    · rw [removeFirst, if_neg hai, ih]
      by_cases hmem : i ∈ rest
      · rw [if_pos hmem, if_pos (List.mem_cons_of_mem a hmem)]
        simp [List.erase_cons_tail, hai]
      · have hni : i ∉ a :: rest := by
          simp only [List.mem_cons]
          rintro (h | h)
          · exact hai h.symm
          · exact hmem h
        rw [if_neg hmem, if_neg hni]
        simp

/-- Counts through the compute loop: the final `add` is the initial `add`
minus `old` (truncated per element), the final `remove` is the initial
`remove` plus `old` minus `add`. -/
theorem deltaLoop_count [DecidableEq α] (old : List α) :
    ∀ (add remove : List α) (a : α),
      ((deltaLoop add remove old).1.count a = add.count a - old.count a) ∧
      ((deltaLoop add remove old).2.count a
        = remove.count a + (old.count a - add.count a)) := by
  induction old with
  | nil =>
    intro add remove a
    simp [deltaLoop]
  | cons i old ih =>
    intro add remove a
    rw [deltaLoop, removeFirst_eq]
    by_cases hmem : i ∈ add
    · rw [if_pos hmem]
      have hpos : 0 < add.count i := List.count_pos_iff.mpr hmem
      have h1 := ih (add.erase i) remove a
      constructor
      · rw [h1.1, List.count_erase, List.count_cons]
        by_cases hia : i = a
        · subst hia; simp; omega
        · simp [hia]
      · rw [h1.2, List.count_erase, List.count_cons]
        by_cases hia : i = a
        · subst hia; simp; omega
        · simp [hia]
    · rw [if_neg hmem]
      have hzero : add.count i = 0 := List.count_eq_zero.mpr hmem
      have h1 := ih add (remove ++ [i]) a
      constructor
      · rw [h1.1, List.count_cons]
        by_cases hia : i = a
        · subst hia; simp; omega
        · simp [hia]
      · rw [h1.2]
        simp only [List.count_append, List.count_cons, List.count_nil]
        by_cases hia : i = a
        · subst hia; simp; omega
        · simp [hia]

/-- Per-element counts of the Unordered diff: `add` is the surplus of `new`
over `old`, `remove` the surplus of `old` over `new`. -/
theorem unorderedDelta_count [DecidableEq α] (old new : List α) (a : α) :
    ((unorderedDelta old new).1.count a = new.count a - old.count a) ∧
    ((unorderedDelta old new).2.count a = old.count a - new.count a) := by
  have h := deltaLoop_count old new [] a
  simpa [unorderedDelta] using h

/-- Counts through the kept-elements walk of the patch. -/
theorem applyKept_count [DecidableEq α] (og : List α) :
    ∀ (remove : List α) (a : α),
      (applyKept remove og).count a = og.count a - remove.count a := by
  induction og with
  | nil =>
    intro remove a
    simp [applyKept]
  | cons i og ih =>
    intro remove a
    rw [applyKept, removeFirst_eq]
    by_cases hmem : i ∈ remove
    · rw [if_pos hmem]
      have hpos : 0 < remove.count i := List.count_pos_iff.mpr hmem
      rw [ih (remove.erase i) a, List.count_erase, List.count_cons]
      by_cases hia : i = a
      · subst hia; simp; omega
      · simp [hia]
    · rw [if_neg hmem]
      have hzero : remove.count i = 0 := List.count_eq_zero.mpr hmem
      rw [List.count_cons, List.count_cons, ih remove a]
      by_cases hia : i = a
      · subst hia; simp; omega
      · simp [hia]

/-- The compute loop run on identical lists consumes everything. -/
theorem deltaLoop_self [DecidableEq α] (l : List α) :
    ∀ remove : List α, deltaLoop l remove l = ([], remove) := by
  induction l with
  | nil => intro remove; rfl
  | cons i rest ih =>
    intro remove
    rw [deltaLoop]
    simp only [removeFirst, if_pos rfl]
    exact ih remove

/-- Diffing a list against itself yields empty add/remove lists. -/
theorem unorderedDelta_self [DecidableEq α] (l : List α) :
    unorderedDelta l l = ([], []) := by
  rw [unorderedDelta, deltaLoop_self]

/-- Round trip at a single Unordered field: applying the computed
(add, remove) pair to `old` reproduces `new` up to permutation. -/
theorem unorderedApply_unorderedDelta_perm [DecidableEq α] (old new : List α) :
    (unorderedApply old (unorderedDelta old new).1
      (unorderedDelta old new).2).Perm new := by
  rw [List.perm_iff_count]
  intro a
  have h := unorderedDelta_count old new a
  have hk := applyKept_count old (unorderedDelta old new).2 a
  rw [unorderedApply, List.count_append, hk, h.1, h.2]
  omega

/-- The compute loop agrees with the spec's working-copy fold. -/
theorem deltaLoop_eq_foldl [DecidableEq α] (old : List α) :
    ∀ add remove : List α,
      old.foldl
        (fun (wr : List α × List α) e =>
          if e ∈ wr.1 then (wr.1.erase e, wr.2) else (wr.1, wr.2 ++ [e]))
        (add, remove)
      = deltaLoop add remove old := by
  induction old with
  | nil =>
    intro add remove
    rfl
  | cons i old ih =>
    intro add remove
    rw [List.foldl_cons, deltaLoop, removeFirst_eq]
    by_cases hmem : i ∈ add
    · rw [if_pos hmem]; rw [if_pos hmem]
      exact ih (add.erase i) remove
    · rw [if_neg hmem]; rw [if_neg hmem]
      exact ih add (remove ++ [i])

/-- The kept-elements walk agrees with the spec's fold (the fold carries the
kept prefix explicitly). -/
theorem applyKept_eq_foldl [DecidableEq α] (og : List α) :
    ∀ kept remove : List α,
      (og.foldl
        (fun (kr : List α × List α) e =>
          if e ∈ kr.2 then (kr.1, kr.2.erase e) else (kr.1 ++ [e], kr.2))
        (kept, remove)).1
      = kept ++ applyKept remove og := by
  induction og with
  | nil =>
    intro kept remove
    simp [applyKept]
  | cons i og ih =>
    intro kept remove
    rw [List.foldl_cons, applyKept, removeFirst_eq]
    by_cases hmem : i ∈ remove
    · rw [if_pos hmem]; rw [if_pos hmem]
      exact ih kept (remove.erase i)
    · rw [if_neg hmem]; rw [if_neg hmem]
      rw [ih (kept ++ [i]) remove, List.append_assoc, List.singleton_append]

/-- A remove list that matches nothing in the original contents removes
nothing. -/
theorem applyKept_of_disjoint [DecidableEq α] (og : List α) :
    ∀ remove : List α, (∀ r ∈ remove, r ∉ og) → applyKept remove og = og := by
  induction og with
  | nil =>
    intro remove _
    rfl
  | cons i og ih =>
    intro remove h
    have hni : i ∉ remove := fun hir => h i hir (List.mem_cons_self i og)
    rw [applyKept, removeFirst_eq, if_neg hni]
    have : applyKept remove og = og :=
      ih remove fun r hr => fun hrog => h r hr (List.mem_cons_of_mem i hrog)
    rw [this]

/-! ## Helper lemmas about the representative record -/

/-- `Inner.delta` signals absence exactly on equal records. -/
theorem inner_delta_eq_none [DecidableEq β] (old new : Inner β) :
    Inner.delta old new = none ↔ old = new := by
  cases old with
  | mk ov =>
    cases new with
    | mk nv =>
      by_cases h : ov = nv <;> simp [Inner.delta, h]

/-- Round trip for the nested record. -/
theorem inner_roundtrip [DecidableEq β] (old new : Inner β) (d : InnerDelta β)
    (h : Inner.delta old new = some d) : old.applyDelta d = new := by
  cases old with
  | mk ov =>
    cases new with
    | mk nv =>
      by_cases hv : ov = nv
      · simp [Inner.delta, hv] at h
      · simp [Inner.delta, hv] at h
        rw [← h]
        simp [Inner.applyDelta]

/-! ## Helper lemma about the classifier -/

/-- The classifier on fields whose attributes are well-formed never fails:
each field resolves to `string_to_fieldtype` of its declared token when that
is recognized, and to the record default otherwise. -/
theorem classify_eq_ok {τ : Type} (fields : List (String × τ × Option String))
    (d : FieldType) :
    classify fields d = Except.ok (fields.map fun f =>
      (f.1, f.2.1, (f.2.2.bind string_to_fieldtype).getD d, "")) := by
  rw [classify, collect_results]
  suffices h : ∀ (l : List (String × τ × Option String))
      (acc : List (String × τ × FieldType × String)),
      List.foldl
        (fun v i =>
          match v, i with
          | Except.ok v, (ident, b, Except.ok (c, dd)) =>
              Except.ok (v ++ [(ident, b, c.getD d, dd)])
          | Except.ok _, (ident, _, Except.error _) => Except.error [ident]
          | Except.error v, (ident, _, Except.error _) => Except.error (v ++ [ident])
          | Except.error v, _ => Except.error v)
        (Except.ok acc)
        (l.map fun f => (f.1, f.2.1, fieldtype_result_of f.2.2))
      = Except.ok (acc ++ l.map fun f =>
          (f.1, f.2.1, (f.2.2.bind string_to_fieldtype).getD d, "")) by
    simpa using h fields []
  intro l
  induction l with
  | nil =>
    intro acc
    simp
  | cons f fs ih =>
    intro acc
    rw [List.map_cons, List.foldl_cons]
    exact
      (ih (acc ++ [(f.1, f.2.1, (f.2.2.bind string_to_fieldtype).getD d, "")])).trans
        (by simp)

/-- Projection of `applyDelta` at the Scalar field: overwrite when the
optional replacement is present. -/
theorem applyDelta_count_proj {γ β : Type} [DecidableEq α] (self : Outer γ α β)
    (d : OuterDelta γ α β) :
    (self.applyDelta d).count =
      match d.count with
      | some v => v
      | none => self.count := by
  rcases d with ⟨dc, da, dr, dad⟩
  rcases dc with _ | v <;> rcases dad with _ | w <;> simp [Outer.applyDelta]

/-- Projection of `applyDelta` at the Unordered field: the kept-walk plus the
added entries. -/
theorem applyDelta_tags_proj {γ β : Type} [DecidableEq α] (self : Outer γ α β)
    (d : OuterDelta γ α β) :
    (self.applyDelta d).tags =
      unorderedApply self.tags d.tags_add d.tags_remove := by
  rcases d with ⟨dc, da, dr, dad⟩
  rcases dc with _ | v <;> rcases dad with _ | w <;> simp [Outer.applyDelta]

/-- Projection of `applyDelta` at the Delta field: recursive apply when the
optional nested delta is present. -/
theorem applyDelta_address_proj {γ β : Type} [DecidableEq α] (self : Outer γ α β)
    (d : OuterDelta γ α β) :
    (self.applyDelta d).address =
      match d.address with
      | some v => self.address.applyDelta v
      | none => self.address := by
  rcases d with ⟨dc, da, dr, dad⟩
  rcases dc with _ | v <;> rcases dad with _ | w <;> simp [Outer.applyDelta]

/-- When `Outer.delta` is present, its components are precisely the per-field
computations. -/
theorem outer_delta_components {γ α β : Type} [DecidableEq γ] [DecidableEq α]
    [DecidableEq β] (old new : Outer γ α β) (d : OuterDelta γ α β)
    (h : Outer.delta old new = some d) :
    d = { count := if old.count ≠ new.count then some new.count else none,
          tags_add := (unorderedDelta old.tags new.tags).1,
          tags_remove := (unorderedDelta old.tags new.tags).2,
          address := Inner.delta old.address new.address } := by
  simp only [Outer.delta] at h
  split at h
  next hcond =>
    rw [if_pos hcond]
    split at h
    · exact (Option.some.inj h).symm
    · exact absurd h (by simp)
  next hcond =>
    rw [if_neg hcond]
    split at h
    · exact (Option.some.inj h).symm
    · exact absurd h (by simp)

/-! ## The claims -/

/-- C1: Round-trip law — for all records `old`, `new`, if `compute(old, new)`
returns a Delta `d`, then applying `d` to a copy of `old` yields a record
equal to `new` in every field whose strategy is Scalar (`count`) or Delta
(`address`), and for the Unordered field (`tags`) the resulting collection is
multiset-equal (a permutation) of `new`'s collection. -/
theorem round_trip_law {γ α β : Type} [DecidableEq γ] [DecidableEq α]
    [DecidableEq β] (old new : Outer γ α β) (d : OuterDelta γ α β)
    (h : Outer.delta old new = some d) :
    (old.applyDelta d).count = new.count ∧
    (old.applyDelta d).address = new.address ∧
    (old.applyDelta d).tags.Perm new.tags := by
  obtain rfl := outer_delta_components old new d h
  refine ⟨?_, ?_, ?_⟩
  · rw [applyDelta_count_proj]
    by_cases hc : old.count = new.count <;> simp [hc]
  · rw [applyDelta_address_proj]
    rcases haddr : Inner.delta old.address new.address with _ | v
    · simp only [haddr]
      exact (inner_delta_eq_none _ _).mp haddr
    · simp only [haddr]
      exact inner_roundtrip _ _ _ haddr
  · rw [applyDelta_tags_proj]
    exact unorderedApply_unorderedDelta_perm old.tags new.tags

/-- C1 witness: a concrete round trip over `Nat` fields. -/
theorem round_trip_law_witness :
    ((⟨0, [0, 1, 1], ⟨5⟩⟩ : Outer Nat Nat Nat).applyDelta
        ⟨some 3, [2], [0, 1], none⟩).count = (⟨3, [1, 2], ⟨5⟩⟩ : Outer Nat Nat Nat).count ∧
    ((⟨0, [0, 1, 1], ⟨5⟩⟩ : Outer Nat Nat Nat).applyDelta
        ⟨some 3, [2], [0, 1], none⟩).address = (⟨3, [1, 2], ⟨5⟩⟩ : Outer Nat Nat Nat).address ∧
    ((⟨0, [0, 1, 1], ⟨5⟩⟩ : Outer Nat Nat Nat).applyDelta
        ⟨some 3, [2], [0, 1], none⟩).tags.Perm (⟨3, [1, 2], ⟨5⟩⟩ : Outer Nat Nat Nat).tags :=
  round_trip_law ⟨0, [0, 1, 1], ⟨5⟩⟩ ⟨3, [1, 2], ⟨5⟩⟩ ⟨some 3, [2], [0, 1], none⟩
    (by decide)

/-- C2: Change-flag correctness — `compute(old, new)` returns absence iff
every field is unchanged under its own strategy's notion of equality:
Scalar values equal, Unordered add and remove lists both empty, the nested
compute absent. -/
theorem change_flag_correctness {γ α β : Type} [DecidableEq γ] [DecidableEq α]
    [DecidableEq β] (old new : Outer γ α β) :
    Outer.delta old new = none ↔
      old.count = new.count ∧
      unorderedDelta old.tags new.tags = ([], []) ∧
      Inner.delta old.address new.address = none := by
  rcases hp : unorderedDelta old.tags new.tags with ⟨ad, rm⟩
  rcases haddr : Inner.delta old.address new.address with _ | v <;>
    by_cases hc : old.count = new.count <;>
      simp [Outer.delta, hp, haddr, hc]

/-- C6: No-op law — for every record `r`, `compute(r, r)` returns absence. -/
theorem noop_law {γ α β : Type} [DecidableEq γ] [DecidableEq α] [DecidableEq β]
    (r : Outer γ α β) : Outer.delta r r = none := by
  simp [Outer.delta, unorderedDelta_self, Inner.delta]

/-- C7: Per-field frame property of apply — a Scalar field whose optional
replacement is absent and a Delta-strategy field whose optional nested delta
is absent are left unchanged, and applying no Delta at all leaves the whole
record unchanged. -/
theorem apply_frame_law {γ α β : Type} [DecidableEq α] (self : Outer γ α β)
    (d : OuterDelta γ α β) :
    (d.count = none → (self.applyDelta d).count = self.count) ∧
    (d.address = none → (self.applyDelta d).address = self.address) ∧
    self.applyOptDelta none = self := by
  refine ⟨fun h => ?_, fun h => ?_, rfl⟩
  · rw [applyDelta_count_proj, h]
  · rw [applyDelta_address_proj, h]

/-- C7 witness: a concrete delta with both optional parts absent. -/
theorem apply_frame_law_witness :
    ((⟨7, [1], ⟨2⟩⟩ : Outer Nat Nat Nat).applyDelta ⟨none, [], [], none⟩).count
        = (⟨7, [1], ⟨2⟩⟩ : Outer Nat Nat Nat).count ∧
    ((⟨7, [1], ⟨2⟩⟩ : Outer Nat Nat Nat).applyDelta ⟨none, [], [], none⟩).address
        = (⟨7, [1], ⟨2⟩⟩ : Outer Nat Nat Nat).address ∧
    (⟨7, [1], ⟨2⟩⟩ : Outer Nat Nat Nat).applyOptDelta none
        = (⟨7, [1], ⟨2⟩⟩ : Outer Nat Nat Nat) :=
  ⟨(apply_frame_law ⟨7, [1], ⟨2⟩⟩ ⟨none, [], [], none⟩).1 rfl,
   (apply_frame_law ⟨7, [1], ⟨2⟩⟩ ⟨none, [], [], none⟩).2.1 rfl,
   (apply_frame_law ⟨7, [1], ⟨2⟩⟩ ⟨none, [], [], none⟩).2.2⟩

/-- C3 (evaluation at the failing input): classifying a record whose two
fields declare the invalid strategy tokens `"foo"` and `"bar"` under the
default `Scalar` succeeds, silently classifying both fields `Scalar` — the
classifier produces no error at all, aggregated or otherwise, because
`string_to_fieldtype`'s `none` is absorbed by the `unwrap_or` in
`collect_results`. -/
theorem classifier_swallows_invalid_tokens :
    classify [("f1", (), some "foo"), ("f2", (), some "bar")] FieldType.Scalar
      = Except.ok [("f1", (), FieldType.Scalar, ""),
                   ("f2", (), FieldType.Scalar, "")] := by
  rw [classify_eq_ok]
  rfl

/-- C4: Unordered diff algorithm — the source loop agrees with the spec's
working-copy description for all inputs, and on `old = [a, b, b]` versus
`new = [b, c]` (distinct `a`, `b`, `c`) it yields removed `[a, b]` and added
`[c]`. -/
theorem unordered_diff_law {α : Type} [DecidableEq α] (old new : List α)
    (a b c : α) (hab : a ≠ b) (hbc : b ≠ c) (hac : a ≠ c) :
    unorderedDelta old new = unorderedDeltaSpec old new ∧
    unorderedDelta [a, b, b] [b, c] = ([c], [a, b]) := by
  constructor
  · rw [unorderedDelta, unorderedDeltaSpec, deltaLoop_eq_foldl]
  · have hba : ¬b = a := fun h => hab h.symm
    have hcb : ¬c = b := fun h => hbc h.symm
    have hca : ¬c = a := fun h => hac h.symm
    simp [unorderedDelta, deltaLoop, removeFirst, hba, hcb, hca]

/-- C4 witness: concrete instances over `Nat`. -/
theorem unordered_diff_law_witness :
    (unorderedDelta [3, 4] [4, 5] = unorderedDeltaSpec [3, 4] [4, 5]) ∧
    unorderedDelta [0, 1, 1] [1, 2] = (([2], [0, 1]) : List Nat × List Nat) :=
  unordered_diff_law [3, 4] [4, 5] 0 1 2 (by decide) (by decide) (by decide)

/-- C5: Unordered patch algorithm — the source walk agrees with the spec's
description (kept elements in order, consumed removes dropped, added entries
appended), and the record-level apply stores exactly this result back into
the Unordered field. -/
theorem unordered_patch_law {γ α β : Type} [DecidableEq α]
    (og add remove : List α) (self : Outer γ α β) (d : OuterDelta γ α β) :
    unorderedApply og add remove = unorderedApplySpec og add remove ∧
    (self.applyDelta d).tags
      = unorderedApply self.tags d.tags_add d.tags_remove := by
  constructor
  · rw [unorderedApply, unorderedApplySpec, applyKept_eq_foldl og [] remove]
    simp
  · exact applyDelta_tags_proj self d

/-- C8: Default strategy resolution — every field lacking an explicit
per-field strategy override is classified with the record-level default, and
an undeclared record-level default resolves to `Scalar`. -/
theorem default_strategy_law {τ : Type} (fields : List (String × τ))
    (decl : Option FieldType) :
    resolve_default none = FieldType.Scalar ∧
    classify (fields.map fun f => (f.1, f.2, (none : Option String)))
        (resolve_default decl)
      = Except.ok (fields.map fun f => (f.1, f.2, resolve_default decl, "")) := by
  refine ⟨rfl, ?_⟩
  rw [classify_eq_ok]
  simp

/-- C9: Disjointness of add and remove — no element value occurs in both the
added and the removed list of an Unordered diff. -/
theorem add_remove_disjoint {α : Type} [DecidableEq α] (old new : List α)
    (x : α) (hx : x ∈ (unorderedDelta old new).1) :
    x ∉ (unorderedDelta old new).2 := by
  intro hx2
  have h := unorderedDelta_count old new x
  have h1 := List.count_pos_iff.mpr hx
  have h2 := List.count_pos_iff.mpr hx2
  rw [h.1] at h1
  rw [h.2] at h2
  omega

/-- C9 witness: a concrete diff over `Nat`. -/
theorem add_remove_disjoint_witness :
    (1 : Nat) ∉ (unorderedDelta [0] [1]).2 :=
  add_remove_disjoint [0] [1] 1 (by decide)

/-- C10: Apply is total and tolerant of foreign targets — the patched
collection's per-element counts are determined for every target (unmatched
removed entries subtract nothing past zero), and when no removed entry
matches the target at all the result is exactly the target with every added
entry appended. -/
theorem apply_total_tolerant {α : Type} [DecidableEq α]
    (og add remove : List α) :
    (∀ a : α, (unorderedApply og add remove).count a
        = (og.count a - remove.count a) + add.count a) ∧
    ((∀ r ∈ remove, r ∉ og) → unorderedApply og add remove = og ++ add) := by
  constructor
  · intro a
    rw [unorderedApply, List.count_append, applyKept_count]
  · intro h
    rw [unorderedApply, applyKept_of_disjoint og remove h]

/-- C10 witness: a removed entry matching nothing is ignored and the added
entry still lands. -/
theorem apply_total_tolerant_witness :
    unorderedApply [1, 2] [5] [9] = ([1, 2] : List Nat) ++ [5] :=
  (apply_total_tolerant [1, 2] [5] [9]).2 (by decide)

end DeltaStruct
